import Mathlib

/-!
Shallow embedding of `src/convert.py`, a batch converter that walks a
neuroimaging dataset, finds FLAIR/DWI `.nii.gz` volumes, min-max normalizes
their intensities to 8-bit and writes every 2D slice along the axial,
coronal and sagittal planes as PNG files into a mirrored output tree.

Volumes are modelled as nested lists of exact rationals (the float64
arithmetic of numpy is modelled exactly; all quantities involved are small
and the claims under study are stable under this reading).  Paths are lists
of path components (`os.sep`-separated pieces); `os.path.join` is list
append and `os.path.relpath(root, input_root)` is the list of components of
`root` below `input_root`, which is how `os.walk` produces them.
-/

/-- A 3D volume as produced by `sitk.GetArrayFromImage`: indexed
`[z][y][x]`, i.e. axes ordered (depth, height, width). -/
abbrev Image3 : Type := List (List (List ℚ))

/-- `np.min` over a flattened volume: `none` on an empty array (where numpy
raises `ValueError`, caught by the per-file handler). -/
def listMin : List ℚ → Option ℚ
  | [] => none
  | x :: xs =>
    match listMin xs with
    | none => some x
    | some m => some (if x ≤ m then x else m)

/-- `np.max` over a flattened volume, `none` on an empty array. -/
def listMax : List ℚ → Option ℚ
  | [] => none
  | x :: xs =>
    match listMax xs with
    | none => some x
    | some m => some (if m ≤ x then x else m)

/-- The per-sample rescale of line 29 followed by the `astype(np.uint8)` of
line 34: `(v - min) / (max - min) * 255.0` truncated to an integer.  The
scaled value is nonnegative for every sample of the volume (each sample is
at least the minimum), so C-style truncation toward zero is the floor. -/
def normalizeVal (mn mx v : ℚ) : ℕ :=
  (⌊(v - mn) / (mx - mn) * 255⌋).toNat

/-- Lines 26-34 of `convert.py`: if `max - min > 0` rescale every sample,
otherwise replace the volume by `np.zeros_like`; then cast to `uint8`. -/
def normImage (img : Image3) (mn mx : ℚ) : List (List (List ℕ)) :=
  if mx - mn > 0 then img.map (List.map (List.map (normalizeVal mn mx)))
  else img.map (List.map (List.map (fun _ => 0)))

/-- Python's format spec `f"{i:03d}"`: decimal digits of `i`, left-padded
with zeros to a minimum width of 3. -/
def pad3 (i : ℕ) : String :=
  let s := Nat.repr i
  if s.length < 3 then String.mk (List.replicate (3 - s.length) '0') ++ s else s

/-- The slice file name `f"slice_{i:03d}.png"` of lines 47/55/63. -/
def sliceName (i : ℕ) : String := "slice_" ++ pad3 i ++ ".png"

/-- One image file handed to `img.save`: the plane subdirectory it is
written into, its file name, and its pixel matrix. -/
structure WrittenFile where
  plane : String
  name : String
  image : List (List ℕ)
deriving DecidableEq

/-- The slice files produced by one plane branch of the `for plane in
planes` loop (lines 41-63).  `axial` takes `np_image[i, :, :]` for
`i < shape[0]`, `coronal` takes `np_image[:, i, :]` for `i < shape[1]`,
`sagittal` takes `np_image[:, :, i]` for `i < shape[2]`; an unrecognized
plane name matches none of the three branches and produces nothing. -/
def planeFiles (norm : List (List (List ℕ))) (plane : String) :
    List WrittenFile :=
  if plane = "axial" then
    (List.range norm.length).map (fun i => ⟨plane, sliceName i, norm.getD i []⟩)
  else if plane = "coronal" then
    (List.range (norm.getD 0 []).length).map
      (fun i => ⟨plane, sliceName i, norm.map (fun p => p.getD i [])⟩)
  else if plane = "sagittal" then
    (List.range ((norm.getD 0 []).getD 0 []).length).map
      (fun i => ⟨plane, sliceName i, norm.map (fun p => p.map (fun r => r.getD i 0))⟩)
  else []

/-- The default `planes` argument of `slice_image` (line 7), also the value
`process_dataset` passes implicitly on line 112. -/
def defaultPlanes : List String := ["axial", "coronal", "sagittal"]

/-- What a successful `slice_image` body produced: the plane
subdirectories it created (one per entry of `planes`, line 39, before the
branch dispatch) and the image files it saved. -/
structure SliceResult where
  dirs : List String
  files : List WrittenFile
deriving DecidableEq

/-- The observable outcome of one `slice_image` call: either the success
print of line 65 or the `except` print of line 68 (an error message on
stderr naming the input path). -/
inductive SliceOutcome where
  | ok (r : SliceResult)
  | error (msg : String)
deriving DecidableEq

/-- A filesystem mutation performed by the program: `os.makedirs(d,
exist_ok=True)` or `img.save(p)` with pixel matrix `img`. -/
inductive Op where
  | mkdir (d : List String)
  | write (p : List String) (img : List (List ℕ))
deriving DecidableEq

/-- The path an operation targets. -/
def opTarget : Op → List String
  | .mkdir d => d
  | .write p _ => p

/-- The directory-creation and file-write operations of the plane loop
(lines 37-63), in program order: for each entry of `planes`, first the
`os.makedirs` of the plane subdirectory, then the `img.save` calls of that
plane's branch. -/
def sliceWriteOps (folder : List String) (norm : List (List (List ℕ)))
    (planes : List String) : List Op :=
  planes.flatMap (fun p =>
    Op.mkdir (folder ++ [p]) ::
      (planeFiles norm p).map (fun f => Op.write (folder ++ [p, f.name]) f.image))

/-- `slice_image` (lines 7-68).  `vol?` is the result of
`sitk.ReadImage`/`GetArrayFromImage`: `none` when reading raises.  The
whole body sits in one `try/except Exception` block, so every failure
(unreadable file, or `np.min` on a zero-size array) becomes the error
print of line 68 carrying `input_path`, and nothing propagates to the
caller.  Returns the outcome together with the filesystem operations
performed. -/
def slice_image (path : String) (vol? : Option Image3) (folder : List String)
    (planes : List String) : SliceOutcome × List Op :=
  match vol? with
  | none => (.error ("  -> ERROR processing file " ++ path ++ ": " ++ "read failed"), [])
  | some img =>
    match listMin img.flatten.flatten, listMax img.flatten.flatten with
    | some mn, some mx =>
      let norm := normImage img mn mx
      (.ok ⟨planes, planes.flatMap (planeFiles norm)⟩, sliceWriteOps folder norm planes)
    | _, _ =>
      (.error ("  -> ERROR processing file " ++ path ++ ": "
        ++ "zero-size array to reduction operation"), [])

/-- Python's `s.endswith(suffix)`: the last characters of `s` are exactly
`suffix`. -/
def pyEndsWith (s suf : String) : Bool :=
  s.data.reverse.take suf.data.length == suf.data.reverse

/-- Python's `s.replace(pat, rep)` on character lists: scan left to right,
replacing every non-overlapping occurrence of `pat`.  (Guarded against an
empty `pat`, which the program never passes.) -/
def replaceChars (pat rep : List Char) : List Char → List Char
  | [] => []
  | c :: rest =>
    if pat.length ≠ 0 ∧ List.take pat.length (c :: rest) = pat then
      rep ++ replaceChars pat rep (List.drop (pat.length - 1) rest)
    else
      c :: replaceChars pat rep rest
termination_by s => s.length
decreasing_by
  all_goals simp only [List.length_drop, List.length_cons]
  all_goals omega

/-- Python's `s.replace(pat, rep)` (line 106 uses
`filename.replace(".nii.gz", "")`, which removes every occurrence). -/
def pyReplace (s pat rep : String) : String :=
  String.mk (replaceChars pat.data rep.data s.data)

/-- Line 93 of `convert.py`:
`'anat' in root.split(os.sep) and filename.endswith('_FLAIR.nii.gz')`,
where `rootComps` is the component list of the containing directory. -/
def isFlair (rootComps : List String) (fn : String) : Bool :=
  rootComps.contains "anat" && pyEndsWith fn "_FLAIR.nii.gz"

/-- Line 94 of `convert.py`:
`'dwi' in root.split(os.sep) and filename.endswith('_dwi.nii.gz')`. -/
def isDwi (rootComps : List String) (fn : String) : Bool :=
  rootComps.contains "dwi" && pyEndsWith fn "_dwi.nii.gz"

/-- The walker's discovery loop (lines 87-96): `os.walk` yields every
directory below the input root as `(rel, files)` where `rel` is the
directory's component path relative to the input root; the full path of
the directory is `inRoot ++ rel`.  A file is kept exactly when `is_flair
or is_dwi` holds of it. -/
def matchedFiles (entries : List (List String × List String))
    (inRoot : List String) : List (List String × String) :=
  entries.flatMap (fun e =>
    (e.2.filter (fun fn => isFlair (inRoot ++ e.1) fn || isDwi (inRoot ++ e.1) fn)).map
      (fun fn => (e.1, fn)))

/-- The input side of a run of `process_dataset`: whether
`os.path.isdir(input_root)` holds, the directory tree `os.walk` would
enumerate, and what `sitk.ReadImage` delivers for each file (`none` when
reading raises). -/
structure FS where
  rootIsDir : Bool
  entries : List (List String × List String)
  load : List String → String → Option Image3

/-- `os.path.join` over components, with `os.sep = "/"`. -/
def joinPath (ps : List String) : String := String.intercalate "/" ps

/-- Lines 101-107: the per-volume slice folder
`output_root/<relative dir>/<filename.replace(".nii.gz", "")>_slices`. -/
def folderFor (outRoot rel : List String) (fn : String) : List String :=
  outRoot ++ rel ++ [pyReplace fn ".nii.gz" "" ++ "_slices"]

/-- What the run records for one matched file: where it was found and how
its `slice_image` call ended. -/
structure FileReport where
  dir : List String
  filename : String
  outcome : SliceOutcome

/-- The observable result of `process_dataset`: either the early return of
lines 79-81 (after the `Error: Input directory ... not found` report) or a
completed traversal with one report per matched file. -/
inductive RunResult where
  | missingInput
  | completed (reports : List FileReport)

/-- Lines 99-112 for one matched file `(rel, filename)`: compute the slice
folder, `os.makedirs(slice_output_folder, exist_ok=True)`, then call
`slice_image` on the file with that folder.  Returns the report and the
filesystem operations in program order. -/
def processFile (fs : FS) (inRoot outRoot : List String)
    (m : List String × String) : FileReport × List Op :=
  let folder := folderFor outRoot m.1 m.2
  let r := slice_image (joinPath (inRoot ++ m.1 ++ [m.2])) (fs.load m.1 m.2) folder
    defaultPlanes
  (⟨m.1, m.2, r.1⟩, Op.mkdir folder :: r.2)

/-- `process_dataset` (lines 71-114). -/
def process_dataset (fs : FS) (inRoot outRoot : List String) : RunResult :=
  if fs.rootIsDir then
    .completed ((matchedFiles fs.entries inRoot).map
      (fun m => (processFile fs inRoot outRoot m).1))
  else .missingInput

/-- The filesystem operations a `process_dataset` run performs, in program
order.  Empty when the input root is missing (lines 79-81 return before
any traversal). -/
def runOps (fs : FS) (inRoot outRoot : List String) : List Op :=
  if fs.rootIsDir then
    (matchedFiles fs.entries inRoot).flatMap
      (fun m => (processFile fs inRoot outRoot m).2)
  else []

/-- The output filesystem state: which directories exist and which image
file sits at which path.  Directories and files live in the namespaces the
program uses for them (folders vs `.png` paths), which never collide. -/
@[ext]
structure OutFS where
  dirs : List String → Bool
  files : List String → Option (List (List ℕ))

/-- Effect of one operation.  `os.makedirs` creates the directory and all
its ancestors; `img.save` (over)writes the file at its path. -/
def applyOp (s : OutFS) : Op → OutFS
  | .mkdir d => ⟨fun q => if q ≠ [] ∧ q ∈ d.inits then true else s.dirs q, s.files⟩
  | .write p img => ⟨s.dirs, fun q => if q = p then some img else s.files q⟩

/-- Effect of a list of operations, first to last. -/
def applyOps (s : OutFS) (ops : List Op) : OutFS := ops.foldl applyOp s

/-- `os.makedirs(d, exist_ok=existOk)`: raises `FileExistsError` when the
target already exists and `exist_ok` is false, otherwise creates the
directory and its missing ancestors.  Every call in `convert.py` (lines 39
and 109) passes `exist_ok=True`. -/
def makedirsE (existOk : Bool) (s : OutFS) (d : List String) :
    Except String OutFS :=
  if s.dirs d && !existOk then .error "FileExistsError"
  else .ok (applyOp s (.mkdir d))

/-- Directory paths an operation creates. -/
def writesDirAt : Op → List String → Prop
  | .mkdir d, q => q ≠ [] ∧ q ∈ d.inits
  | .write _ _, _ => False

/-- File paths an operation writes. -/
def writesFileAt : Op → List String → Prop
  | .write p _, q => q = p
  | .mkdir _, _ => False

/-- A 2D array of `h` rows, each of `w` entries — the shape of a saved
slice. -/
def HasShape2 {α : Type} (im : List (List α)) (h w : ℕ) : Prop :=
  im.length = h ∧ ∀ r ∈ im, r.length = w

/-- A 3D array of numpy shape `(d, h, w)`. -/
def HasShape3 {α : Type} (img : List (List (List α))) (d h w : ℕ) : Prop :=
  img.length = d ∧ ∀ p ∈ img, p.length = h ∧ ∀ r ∈ p, r.length = w

/-- The files a `slice_image` call saved into the subdirectory of one
plane. -/
def filesOfPlane (files : List WrittenFile) (plane : String) : List WrittenFile :=
  files.filter (fun f => f.plane == plane)

/-- Modelled from the spec: the per-sample rescale as the specification
words it, `round((v - min) / (max - min) * 255)` taken into the 8-bit
range — written to be compared against `normalizeVal`, which is what the
code computes. -/
def specRoundRescale (mn mx v : ℚ) : ℕ :=
  min (round ((v - mn) / (mx - mn) * 255)).toNat 255

/-- Modelled from the spec: `<filename-without-.nii.gz-suffix>`, i.e. the
filename with one trailing `.nii.gz` removed — written to be compared
against the code's `filename.replace(".nii.gz", "")`. -/
def specStripNiiGz (fn : String) : String :=
  if pyEndsWith fn ".nii.gz" then String.mk (fn.data.take (fn.data.length - 7)) else fn


instance {α : Type} (im : List (List α)) (h w : ℕ) :
    Decidable (HasShape2 im h w) := by
  unfold HasShape2; infer_instance

instance {α : Type} (img : List (List (List α))) (d h w : ℕ) :
    Decidable (HasShape3 img d h w) := by
  unfold HasShape3; infer_instance

theorem listMin_eq_none {l : List ℚ} : listMin l = none ↔ l = [] := by
  cases l with
  | nil => simp [listMin]
  | cons a l => cases h' : listMin l <;> simp [listMin, h']

theorem listMax_eq_none {l : List ℚ} : listMax l = none ↔ l = [] := by
  cases l with
  | nil => simp [listMax]
  | cons a l => cases h' : listMax l <;> simp [listMax, h']

theorem listMin_isSome {l : List ℚ} (h : l ≠ []) : ∃ m, listMin l = some m := by
  cases h' : listMin l with
  | none => exact absurd (listMin_eq_none.mp h') h
  | some m => exact ⟨m, rfl⟩

theorem listMax_isSome {l : List ℚ} (h : l ≠ []) : ∃ m, listMax l = some m := by
  cases h' : listMax l with
  | none => exact absurd (listMax_eq_none.mp h') h
  | some m => exact ⟨m, rfl⟩

theorem listMin_le {l : List ℚ} {m : ℚ} (h : listMin l = some m) :
    ∀ x ∈ l, m ≤ x := by
  induction l generalizing m with
  | nil => simp [listMin] at h
  | cons a l ih =>
    cases h' : listMin l with
    | none =>
      rw [listMin, h'] at h
      rcases listMin_eq_none.mp h' with rfl
      simp only [Option.some.injEq] at h
      intro x hx
      simp only [List.mem_singleton] at hx
      rw [hx, ← h]
    | some m' =>
      rw [listMin, h'] at h
      simp only [Option.some.injEq] at h
      intro x hx
      rcases List.mem_cons.mp hx with rfl | hx2
      · rcases le_or_lt x m' with hcmp | hcmp
        · rw [if_pos hcmp] at h
          rw [← h]
        · rw [if_neg (not_le.mpr hcmp)] at h
          rw [← h]
          exact le_of_lt hcmp
      · have hm' := ih h' x hx2
        rcases le_or_lt a m' with hcmp | hcmp
        · rw [if_pos hcmp] at h
          rw [← h]
          exact le_trans hcmp hm'
        · rw [if_neg (not_le.mpr hcmp)] at h
          rw [← h]
          exact hm'

theorem le_listMax {l : List ℚ} {m : ℚ} (h : listMax l = some m) :
    ∀ x ∈ l, x ≤ m := by
  induction l generalizing m with
  | nil => simp [listMax] at h
  | cons a l ih =>
    cases h' : listMax l with
    | none =>
      rw [listMax, h'] at h
      rcases listMax_eq_none.mp h' with rfl
      simp only [Option.some.injEq] at h
      intro x hx
      simp only [List.mem_singleton] at hx
      rw [hx, ← h]
    | some m' =>
      rw [listMax, h'] at h
      simp only [Option.some.injEq] at h
      intro x hx
      rcases List.mem_cons.mp hx with rfl | hx2
      · rcases le_or_lt m' x with hcmp | hcmp
        · rw [if_pos hcmp] at h
          rw [← h]
        · rw [if_neg (not_le.mpr hcmp)] at h
          rw [← h]
          exact le_of_lt hcmp
      · have hm' := ih h' x hx2
        rcases le_or_lt m' a with hcmp | hcmp
        · rw [if_pos hcmp] at h
          rw [← h]
          exact le_trans hm' hcmp
        · rw [if_neg (not_le.mpr hcmp)] at h
          rw [← h]
          exact hm'

theorem getD_mem {α : Type} {l : List α} {i : ℕ} {d : α} (h : i < l.length) :
    l.getD i d ∈ l := by
  rw [List.getD_eq_getElem?_getD, List.getElem?_eq_getElem h]
  exact List.getElem_mem h

theorem getD_prop {α : Type} {P : α → Prop} {l : List α} {i : ℕ} {d : α}
    (hl : ∀ a ∈ l, P a) (hd : P d) : P (l.getD i d) := by
  rcases lt_or_le i l.length with h | h
  · exact hl _ (getD_mem h)
  · rw [List.getD_eq_default _ _ h]
    exact hd

theorem planeFiles_axial (norm : List (List (List ℕ))) :
    planeFiles norm "axial"
      = (List.range norm.length).map
          (fun i => ⟨"axial", sliceName i, norm.getD i []⟩) := by
  simp [planeFiles]

theorem planeFiles_coronal (norm : List (List (List ℕ))) :
    planeFiles norm "coronal"
      = (List.range (norm.getD 0 []).length).map
          (fun i => ⟨"coronal", sliceName i, norm.map (fun p => p.getD i [])⟩) := by
  simp [planeFiles]

theorem planeFiles_sagittal (norm : List (List (List ℕ))) :
    planeFiles norm "sagittal"
      = (List.range ((norm.getD 0 []).getD 0 []).length).map
          (fun i =>
            ⟨"sagittal", sliceName i, norm.map (fun p => p.map (fun r => r.getD i 0))⟩) := by
  simp [planeFiles]

theorem planeFiles_other (norm : List (List (List ℕ))) {p : String}
    (h1 : p ≠ "axial") (h2 : p ≠ "coronal") (h3 : p ≠ "sagittal") :
    planeFiles norm p = [] := by
  simp [planeFiles, h1, h2, h3]

theorem planeFiles_plane (norm : List (List (List ℕ))) (p : String) :
    ∀ f ∈ planeFiles norm p, f.plane = p := by
  intro f hf
  unfold planeFiles at hf
  split at hf
  · rcases List.mem_map.mp hf with ⟨i, _, rfl⟩
    rfl
  · split at hf
    · rcases List.mem_map.mp hf with ⟨i, _, rfl⟩
      rfl
    · split at hf
      · rcases List.mem_map.mp hf with ⟨i, _, rfl⟩
        rfl
      · simp at hf

theorem filesOfPlane_self (norm : List (List (List ℕ))) (p : String) :
    filesOfPlane (planeFiles norm p) p = planeFiles norm p := by
  rw [filesOfPlane, List.filter_eq_self]
  intro f hf
  simp [planeFiles_plane norm p f hf]

theorem filesOfPlane_ne (norm : List (List (List ℕ))) {p q : String}
    (h : q ≠ p) : filesOfPlane (planeFiles norm q) p = [] := by
  rw [filesOfPlane, List.filter_eq_nil_iff]
  intro f hf
  simp [planeFiles_plane norm q f hf, h]

theorem filesOfPlane_append (a b : List WrittenFile) (p : String) :
    filesOfPlane (a ++ b) p = filesOfPlane a p ++ filesOfPlane b p := by
  simp [filesOfPlane]

theorem normImage_rescale {mn mx : ℚ} (img : Image3) (h : mn < mx) :
    normImage img mn mx
      = img.map (List.map (List.map (normalizeVal mn mx))) := by
  rw [normImage, if_pos (by linarith)]

theorem normImage_shape {α β : Type} {img : List (List (List α))} {d h w : ℕ}
    (f : α → β) (hs : HasShape3 img d h w) :
    HasShape3 (img.map (List.map (List.map f))) d h w := by
  obtain ⟨hd, hrest⟩ := hs
  refine ⟨by simp [hd], ?_⟩
  intro p hp
  rcases List.mem_map.mp hp with ⟨p0, hp0, rfl⟩
  obtain ⟨hh, hrow⟩ := hrest p0 hp0
  refine ⟨by simp [hh], ?_⟩
  intro r hr
  rcases List.mem_map.mp hr with ⟨r0, hr0, rfl⟩
  simp [(hrow r0 hr0)]

theorem normImage_hasShape {img : Image3} {d h w : ℕ} (mn mx : ℚ)
    (hs : HasShape3 img d h w) : HasShape3 (normImage img mn mx) d h w := by
  rw [normImage]
  split
  · exact normImage_shape _ hs
  · exact normImage_shape _ hs

theorem normImage_degenerate (img : Image3) (m : ℚ) :
    ∀ p ∈ normImage img m m, ∀ r ∈ p, ∀ x ∈ r, x = 0 := by
  intro p hp r hr x hx
  rw [normImage, if_neg (by simp)] at hp
  rcases List.mem_map.mp hp with ⟨p0, _, rfl⟩
  rcases List.mem_map.mp hr with ⟨r0, _, rfl⟩
  rcases List.mem_map.mp hx with ⟨x0, _, rfl⟩
  rfl

theorem shape_flatten_mem {img : Image3} {d h w : ℕ}
    (hs : HasShape3 img d h w) (hd : 0 < d) (hh : 0 < h) (hw : 0 < w) :
    img.flatten.flatten ≠ [] := by
  obtain ⟨hlen, hrest⟩ := hs
  obtain ⟨p, hp⟩ := List.exists_mem_of_length_pos (by rw [hlen]; exact hd)
  obtain ⟨hplen, hrow⟩ := hrest p hp
  obtain ⟨r, hr⟩ := List.exists_mem_of_length_pos (by rw [hplen]; exact hh)
  obtain ⟨x, hx⟩ := List.exists_mem_of_length_pos (by rw [hrow r hr]; exact hw)
  have : x ∈ img.flatten.flatten :=
    List.mem_flatten.mpr ⟨r, List.mem_flatten.mpr ⟨p, hp, hr⟩, hx⟩
  intro hnil
  rw [hnil] at this
  exact absurd this (List.not_mem_nil x)

theorem filesOfPlane_default_axial (norm : List (List (List ℕ))) :
    filesOfPlane (defaultPlanes.flatMap (planeFiles norm)) "axial"
      = planeFiles norm "axial" := by
  simp only [defaultPlanes, List.flatMap_cons, List.flatMap_nil, List.append_nil]
  rw [filesOfPlane_append, filesOfPlane_append, filesOfPlane_self,
    filesOfPlane_ne norm (show "coronal" ≠ "axial" by decide),
    filesOfPlane_ne norm (show "sagittal" ≠ "axial" by decide)]
  simp

theorem filesOfPlane_default_coronal (norm : List (List (List ℕ))) :
    filesOfPlane (defaultPlanes.flatMap (planeFiles norm)) "coronal"
      = planeFiles norm "coronal" := by
  simp only [defaultPlanes, List.flatMap_cons, List.flatMap_nil, List.append_nil]
  rw [filesOfPlane_append, filesOfPlane_append, filesOfPlane_self,
    filesOfPlane_ne norm (show "axial" ≠ "coronal" by decide),
    filesOfPlane_ne norm (show "sagittal" ≠ "coronal" by decide)]
  simp

theorem filesOfPlane_default_sagittal (norm : List (List (List ℕ))) :
    filesOfPlane (defaultPlanes.flatMap (planeFiles norm)) "sagittal"
      = planeFiles norm "sagittal" := by
  simp only [defaultPlanes, List.flatMap_cons, List.flatMap_nil, List.append_nil]
  rw [filesOfPlane_append, filesOfPlane_append, filesOfPlane_self,
    filesOfPlane_ne norm (show "axial" ≠ "sagittal" by decide),
    filesOfPlane_ne norm (show "coronal" ≠ "sagittal" by decide)]
  simp

theorem coronal_extent {norm : List (List (List ℕ))} {d h w : ℕ}
    (hs : HasShape3 norm d h w) (hd : 0 < d) : (norm.getD 0 []).length = h :=
  (hs.2 _ (getD_mem (by rw [hs.1]; exact hd))).1

theorem sagittal_extent {norm : List (List (List ℕ))} {d h w : ℕ}
    (hs : HasShape3 norm d h w) (hd : 0 < d) (hh : 0 < h) :
    ((norm.getD 0 []).getD 0 []).length = w := by
  have hp : norm.getD 0 [] ∈ norm := getD_mem (by rw [hs.1]; exact hd)
  have hr : (norm.getD 0 []).getD 0 [] ∈ norm.getD 0 [] :=
    getD_mem (by rw [(hs.2 _ hp).1]; exact hh)
  exact (hs.2 _ hp).2 _ hr

theorem axial_files_len {norm : List (List (List ℕ))} {d h w : ℕ}
    (hs : HasShape3 norm d h w) : (planeFiles norm "axial").length = d := by
  rw [planeFiles_axial]
  simp [hs.1]

theorem coronal_files_len {norm : List (List (List ℕ))} {d h w : ℕ}
    (hs : HasShape3 norm d h w) (hd : 0 < d) :
    (planeFiles norm "coronal").length = h := by
  rw [planeFiles_coronal, List.length_map, List.length_range]
  exact coronal_extent hs hd

theorem sagittal_files_len {norm : List (List (List ℕ))} {d h w : ℕ}
    (hs : HasShape3 norm d h w) (hd : 0 < d) (hh : 0 < h) :
    (planeFiles norm "sagittal").length = w := by
  rw [planeFiles_sagittal, List.length_map, List.length_range]
  exact sagittal_extent hs hd hh

theorem axial_files_shape {norm : List (List (List ℕ))} {d h w : ℕ}
    (hs : HasShape3 norm d h w) :
    ∀ f ∈ planeFiles norm "axial", HasShape2 f.image h w := by
  intro f hf
  rw [planeFiles_axial] at hf
  rcases List.mem_map.mp hf with ⟨i, hi, rfl⟩
  have hlt : i < norm.length := List.mem_range.mp hi
  have hp := hs.2 _ (getD_mem (d := []) hlt)
  exact ⟨hp.1, hp.2⟩

theorem coronal_files_shape {norm : List (List (List ℕ))} {d h w : ℕ}
    (hs : HasShape3 norm d h w) (hd : 0 < d) :
    ∀ f ∈ planeFiles norm "coronal", HasShape2 f.image d w := by
  intro f hf
  rw [planeFiles_coronal] at hf
  rcases List.mem_map.mp hf with ⟨i, hi, rfl⟩
  have hlt : i < h := by
    rw [← coronal_extent hs hd]
    exact List.mem_range.mp hi
  constructor
  · simp [hs.1]
  · intro r hr
    rcases List.mem_map.mp hr with ⟨p, hp, rfl⟩
    have hrow := hs.2 _ hp
    have : p.getD i [] ∈ p := getD_mem (by rw [hrow.1]; exact hlt)
    exact hrow.2 _ this

theorem sagittal_files_shape {norm : List (List (List ℕ))} {d h w : ℕ}
    (hs : HasShape3 norm d h w) :
    ∀ f ∈ planeFiles norm "sagittal", HasShape2 f.image d h := by
  intro f hf
  rw [planeFiles_sagittal] at hf
  rcases List.mem_map.mp hf with ⟨i, hi, rfl⟩
  constructor
  · simp [hs.1]
  · intro r hr
    rcases List.mem_map.mp hr with ⟨p, hp, rfl⟩
    simp [(hs.2 _ hp).1]

/-- C2: for a volume of shape `(D, H, W)` sliced with all three planes,
`slice_image` writes exactly `D` axial images of shape `(H, W)`, exactly
`H` coronal images of shape `(D, W)`, and exactly `W` sagittal images of
shape `(D, H)`; each plane's slice count is the volume's extent along that
plane's fixed axis. -/
theorem slice_counts_and_shapes_C2 (img : Image3) (d h w : ℕ)
    (path : String) (folder : List String) (hs : HasShape3 img d h w)
    (hd : 0 < d) (hh : 0 < h) (hw : 0 < w) :
    ∃ files : List WrittenFile,
      (slice_image path (some img) folder defaultPlanes).1
          = .ok ⟨defaultPlanes, files⟩
        ∧ (filesOfPlane files "axial").length = d
        ∧ (∀ f ∈ filesOfPlane files "axial", HasShape2 f.image h w)
        ∧ (filesOfPlane files "coronal").length = h
        ∧ (∀ f ∈ filesOfPlane files "coronal", HasShape2 f.image d w)
        ∧ (filesOfPlane files "sagittal").length = w
        ∧ (∀ f ∈ filesOfPlane files "sagittal", HasShape2 f.image d h) := by
  obtain ⟨mn, hmn⟩ := listMin_isSome (shape_flatten_mem hs hd hh hw)
  obtain ⟨mx, hmx⟩ := listMax_isSome (shape_flatten_mem hs hd hh hw)
  have hnorm := normImage_hasShape mn mx hs
  refine ⟨defaultPlanes.flatMap (planeFiles (normImage img mn mx)), ?_, ?_, ?_, ?_, ?_, ?_, ?_⟩
  · simp [slice_image, hmn, hmx]
  · rw [filesOfPlane_default_axial]
    exact axial_files_len hnorm
  · rw [filesOfPlane_default_axial]
    exact axial_files_shape hnorm
  · rw [filesOfPlane_default_coronal]
    exact coronal_files_len hnorm hd
  · rw [filesOfPlane_default_coronal]
    exact coronal_files_shape hnorm hd
  · rw [filesOfPlane_default_sagittal]
    exact sagittal_files_len hnorm hd hh
  · rw [filesOfPlane_default_sagittal]
    exact sagittal_files_shape hnorm

theorem normalizeVal_at_min (mn mx : ℚ) : normalizeVal mn mx mn = 0 := by
  unfold normalizeVal
  simp

theorem normalizeVal_at_max {mn mx : ℚ} (h : mn < mx) :
    normalizeVal mn mx mx = 255 := by
  unfold normalizeVal
  rw [div_self (ne_of_gt (sub_pos.mpr h))]
  norm_num
  rfl

theorem normalizeVal_le {mn mx v : ℚ} (h : mn < mx) (hv : v ≤ mx) :
    normalizeVal mn mx v ≤ 255 := by
  unfold normalizeVal
  have h1 : (v - mn) / (mx - mn) ≤ 1 := by
    rw [div_le_one (sub_pos.mpr h)]
    linarith
  have h2 : (v - mn) / (mx - mn) * 255 ≤ 255 := by
    calc (v - mn) / (mx - mn) * 255 ≤ 1 * 255 :=
          mul_le_mul_of_nonneg_right h1 (by norm_num)
      _ = 255 := one_mul 255
  have h3 : ⌊(v - mn) / (mx - mn) * 255⌋ ≤ 255 := by
    have := Int.floor_le_floor h2
    rwa [show ⌊(255 : ℚ)⌋ = 255 by norm_num] at this
  exact Int.toNat_le.mpr (by exact_mod_cast h3)

/-- C1 (amended): for a volume whose maximum exceeds its minimum, the
normalization maps every sample through
`floor((v - min) / (max - min) * 255)` (C-style truncation of the
nonnegative scaled value, from `astype(np.uint8)`), which sends every
sample into `[0, 255]`, the minimum to `0` and the maximum to `255`. -/
theorem normalization_range_C1 (img : Image3) (mn mx : ℚ)
    (hmn : listMin img.flatten.flatten = some mn)
    (hmx : listMax img.flatten.flatten = some mx) (hlt : mn < mx) :
    normImage img mn mx = img.map (List.map (List.map (normalizeVal mn mx)))
    ∧ normalizeVal mn mx mn = 0
    ∧ normalizeVal mn mx mx = 255
    ∧ (∀ v ∈ img.flatten.flatten, normalizeVal mn mx v ≤ 255) := by
  refine ⟨normImage_rescale img hlt, normalizeVal_at_min mn mx,
    normalizeVal_at_max hlt, ?_⟩
  intro v hv
  exact normalizeVal_le hlt (le_listMax hmx v hv)

/-- C1 counterexample: the code truncates the scaled value rather than
rounding it.  On the volume `[[[0, 9, 10]]]` (min 0, max 10) the sample
`9` scales to `229.5`; the code writes `229` while the claimed
`round((v - min) / (max - min) * 255)` gives `230`. -/
theorem normalization_rounding_C1_counterexample :
    listMin ([[[0, 9, 10]]] : Image3).flatten.flatten = some 0
    ∧ listMax ([[[0, 9, 10]]] : Image3).flatten.flatten = some 10
    ∧ normalizeVal 0 10 9 = 229
    ∧ specRoundRescale 0 10 9 = 230
    ∧ normalizeVal 0 10 9 ≠ specRoundRescale 0 10 9 := by
  have e1 : normalizeVal 0 10 9 = 229 := by
    norm_num [normalizeVal]
    rfl
  have e2 : specRoundRescale 0 10 9 = 230 := by
    norm_num [specRoundRescale, round_eq]
    rfl
  refine ⟨by decide, by decide, e1, e2, ?_⟩
  rw [e1, e2]
  decide

theorem planeFiles_zero {norm : List (List (List ℕ))}
    (hz : ∀ p ∈ norm, ∀ r ∈ p, ∀ x ∈ r, x = 0) (plane : String) :
    ∀ f ∈ planeFiles norm plane, ∀ row ∈ f.image, ∀ x ∈ row, x = 0 := by
  intro f hf
  unfold planeFiles at hf
  split at hf
  · rcases List.mem_map.mp hf with ⟨i, _, rfl⟩
    intro row hrow x hx
    exact getD_prop (P := fun p => ∀ r2 ∈ p, ∀ x2 ∈ r2, x2 = 0) hz
      (by simp) row hrow x hx
  · split at hf
    · rcases List.mem_map.mp hf with ⟨i, _, rfl⟩
      intro row hrow x hx
      rcases List.mem_map.mp hrow with ⟨p, hp, rfl⟩
      exact getD_prop (P := fun r2 => ∀ x2 ∈ r2, x2 = 0) (hz p hp)
        (by simp) x hx
    · split at hf
      · rcases List.mem_map.mp hf with ⟨i, _, rfl⟩
        intro row hrow x hx
        rcases List.mem_map.mp hrow with ⟨p, hp, rfl⟩
        rcases List.mem_map.mp hx with ⟨r, hr, rfl⟩
        exact getD_prop (P := fun x2 => x2 = 0) (hz p hp r hr) rfl
      · simp at hf

/-- C4: on a degenerate volume (max equals min) `slice_image` still
succeeds and every pixel of every written slice is `0`. -/
theorem degenerate_all_zero_C4 (img : Image3) (m : ℚ) (path : String)
    (folder : List String) (planes : List String)
    (hmn : listMin img.flatten.flatten = some m)
    (hmx : listMax img.flatten.flatten = some m) :
    (slice_image path (some img) folder planes).1
        = .ok ⟨planes, planes.flatMap (planeFiles (normImage img m m))⟩
    ∧ ∀ f ∈ planes.flatMap (planeFiles (normImage img m m)),
        ∀ row ∈ f.image, ∀ x ∈ row, x = 0 := by
  constructor
  · simp [slice_image, hmn, hmx]
  · intro f hf
    rcases List.mem_flatMap.mp hf with ⟨p, _, hfp⟩
    exact planeFiles_zero (normImage_degenerate img m) p f hfp

theorem pad3_length (i : ℕ) : (pad3 i).length = max 3 (Nat.repr i).length := by
  by_cases hlen : (Nat.repr i).length < 3
  · simp only [pad3]
    rw [if_pos hlen, String.length_append,
      show (String.mk (List.replicate (3 - (Nat.repr i).length) '0')).length
          = (List.replicate (3 - (Nat.repr i).length) '0').length from rfl,
      List.length_replicate]
    omega
  · simp only [pad3]
    rw [if_neg hlen]
    omega

theorem sliceName_length (i : ℕ) :
    (sliceName i).length = 10 + max 3 (Nat.repr i).length := by
  unfold sliceName
  rw [String.length_append, String.length_append, pad3_length,
    show ("slice_" : String).length = 6 from rfl,
    show (".png" : String).length = 4 from rfl]
  omega

theorem axial_files_names {norm : List (List (List ℕ))} {d h w : ℕ}
    (hs : HasShape3 norm d h w) :
    (planeFiles norm "axial").map (fun f => f.name)
      = (List.range d).map sliceName := by
  rw [planeFiles_axial, hs.1, List.map_map]
  rfl

theorem coronal_files_names {norm : List (List (List ℕ))} {d h w : ℕ}
    (hs : HasShape3 norm d h w) (hd : 0 < d) :
    (planeFiles norm "coronal").map (fun f => f.name)
      = (List.range h).map sliceName := by
  rw [planeFiles_coronal, coronal_extent hs hd, List.map_map]
  rfl

theorem sagittal_files_names {norm : List (List (List ℕ))} {d h w : ℕ}
    (hs : HasShape3 norm d h w) (hd : 0 < d) (hh : 0 < h) :
    (planeFiles norm "sagittal").map (fun f => f.name)
      = (List.range w).map sliceName := by
  rw [planeFiles_sagittal, sagittal_extent hs hd hh, List.map_map]
  rfl

/-- C8: each plane enumerates its fixed axis ascending from 0 and names
slice `i` as `slice_<i>.png` with `i` zero-padded to at least three
digits, growing beyond three digits when needed (`slice_000.png`,
`slice_1000.png`). -/
theorem slice_naming_C8 (img : Image3) (d h w : ℕ) (path : String)
    (folder : List String) (hs : HasShape3 img d h w)
    (hd : 0 < d) (hh : 0 < h) (hw : 0 < w) :
    ∃ files : List WrittenFile,
      (slice_image path (some img) folder defaultPlanes).1
          = .ok ⟨defaultPlanes, files⟩
        ∧ (filesOfPlane files "axial").map (fun f => f.name)
            = (List.range d).map sliceName
        ∧ (filesOfPlane files "coronal").map (fun f => f.name)
            = (List.range h).map sliceName
        ∧ (filesOfPlane files "sagittal").map (fun f => f.name)
            = (List.range w).map sliceName
        ∧ sliceName 0 = "slice_000.png"
        ∧ sliceName 1000 = "slice_1000.png"
        ∧ ∀ i : ℕ, (sliceName i).length = 10 + max 3 (Nat.repr i).length := by
  obtain ⟨mn, hmn⟩ := listMin_isSome (shape_flatten_mem hs hd hh hw)
  obtain ⟨mx, hmx⟩ := listMax_isSome (shape_flatten_mem hs hd hh hw)
  have hnorm := normImage_hasShape mn mx hs
  refine ⟨defaultPlanes.flatMap (planeFiles (normImage img mn mx)),
    by simp [slice_image, hmn, hmx], ?_, ?_, ?_, by decide, by decide,
    sliceName_length⟩
  · rw [filesOfPlane_default_axial]
    exact axial_files_names hnorm
  · rw [filesOfPlane_default_coronal]
    exact coronal_files_names hnorm hd
  · rw [filesOfPlane_default_sagittal]
    exact sagittal_files_names hnorm hd hh

theorem mkdir_mem_sliceWriteOps (folder : List String)
    (norm : List (List (List ℕ))) (planes : List String) {p : String}
    (hp : p ∈ planes) :
    Op.mkdir (folder ++ [p]) ∈ sliceWriteOps folder norm planes := by
  unfold sliceWriteOps
  exact List.mem_flatMap.mpr ⟨p, hp, List.mem_cons_self _ _⟩

theorem sliceWriteOps_cases {folder : List String}
    {norm : List (List (List ℕ))} {planes : List String} :
    ∀ op ∈ sliceWriteOps folder norm planes,
      (∃ q ∈ planes, op = Op.mkdir (folder ++ [q]))
      ∨ (∃ q ∈ planes, ∃ f ∈ planeFiles norm q,
          op = Op.write (folder ++ [q, f.name]) f.image) := by
  intro op hop
  rcases List.mem_flatMap.mp hop with ⟨q, hq, hopq⟩
  rcases List.mem_cons.mp hopq with rfl | hop2
  · exact Or.inl ⟨q, hq, rfl⟩
  · rcases List.mem_map.mp hop2 with ⟨f, hf, rfl⟩
    exact Or.inr ⟨q, hq, f, hf, rfl⟩

/-- C10: a `planes` entry that is none of `axial`, `coronal`, `sagittal`
still gets its plane-named subdirectory created, but no slice file is
written into it and no error is raised. -/
theorem unknown_plane_C10 (img : Image3) (mn mx : ℚ) (path : String)
    (folder : List String) (planes : List String) (p : String)
    (hmn : listMin img.flatten.flatten = some mn)
    (hmx : listMax img.flatten.flatten = some mx)
    (h1 : p ≠ "axial") (h2 : p ≠ "coronal") (h3 : p ≠ "sagittal")
    (hp : p ∈ planes) :
    (slice_image path (some img) folder planes).1
        = .ok ⟨planes, planes.flatMap (planeFiles (normImage img mn mx))⟩
    ∧ (slice_image path (some img) folder planes).2
        = sliceWriteOps folder (normImage img mn mx) planes
    ∧ Op.mkdir (folder ++ [p]) ∈ sliceWriteOps folder (normImage img mn mx) planes
    ∧ planeFiles (normImage img mn mx) p = []
    ∧ ∀ op ∈ sliceWriteOps folder (normImage img mn mx) planes,
        ∀ nm : String, ∀ im2 : List (List ℕ),
          op ≠ Op.write (folder ++ [p, nm]) im2 := by
  refine ⟨by simp [slice_image, hmn, hmx], by simp [slice_image, hmn, hmx],
    mkdir_mem_sliceWriteOps folder _ planes hp,
    planeFiles_other _ h1 h2 h3, ?_⟩
  intro op hop nm im2 heq
  rcases sliceWriteOps_cases op hop with ⟨q, _, rfl⟩ | ⟨q, _, f, hf, rfl⟩
  · simp at heq
  · have hpaths : folder ++ [q, f.name] = folder ++ [p, nm] := by
      injection heq
    have hq : q = p := by
      have h := (List.append_right_inj folder).mp hpaths
      simp at h
      exact h.1
    rw [hq, planeFiles_other _ h1 h2 h3] at hf
    exact absurd hf (List.not_mem_nil f)

theorem isFlair_iff (l : List String) (s : String) :
    isFlair l s = true ↔ ("anat" ∈ l ∧ pyEndsWith s "_FLAIR.nii.gz" = true) := by
  simp [isFlair]

theorem isDwi_iff (l : List String) (s : String) :
    isDwi l s = true ↔ ("dwi" ∈ l ∧ pyEndsWith s "_dwi.nii.gz" = true) := by
  simp [isDwi]

/-- C5: a visited file is dispatched to the slicer as a FLAIR match iff
its containing directory's components include `anat` and its name ends in
`_FLAIR.nii.gz`, and as a DWI match iff the components include `dwi` and
the name ends in `_dwi.nii.gz`; neither half of either conjunction alone
produces a match. -/
theorem match_predicate_C5 (entries : List (List String × List String))
    (inRoot rel : List String) (files : List String) (fn : String)
    (he : (rel, files) ∈ entries) (hf : fn ∈ files) :
    ((rel, fn) ∈ matchedFiles entries inRoot ↔
      (("anat" ∈ inRoot ++ rel ∧ pyEndsWith fn "_FLAIR.nii.gz" = true)
        ∨ ("dwi" ∈ inRoot ++ rel ∧ pyEndsWith fn "_dwi.nii.gz" = true)))
    ∧ (isFlair (inRoot ++ rel) fn = true ↔
        ("anat" ∈ inRoot ++ rel ∧ pyEndsWith fn "_FLAIR.nii.gz" = true))
    ∧ (isDwi (inRoot ++ rel) fn = true ↔
        ("dwi" ∈ inRoot ++ rel ∧ pyEndsWith fn "_dwi.nii.gz" = true)) := by
  refine ⟨⟨?_, ?_⟩, isFlair_iff _ _, isDwi_iff _ _⟩
  · intro hmem
    rcases List.mem_flatMap.mp hmem with ⟨e, _, hin⟩
    rcases List.mem_map.mp hin with ⟨fn2, hfn2, heq⟩
    have he1 : e.1 = rel := congrArg Prod.fst heq
    have he2 : fn2 = fn := congrArg Prod.snd heq
    have hflt := (List.mem_filter.mp hfn2).2
    rw [he1, he2] at hflt
    have hflt2 : isFlair (inRoot ++ rel) fn = true
        ∨ isDwi (inRoot ++ rel) fn = true := by simpa using hflt
    rcases hflt2 with hc | hc
    · exact Or.inl ((isFlair_iff _ _).mp hc)
    · exact Or.inr ((isDwi_iff _ _).mp hc)
  · intro hcond
    apply List.mem_flatMap.mpr
    refine ⟨(rel, files), he, ?_⟩
    apply List.mem_map.mpr
    refine ⟨fn, ?_, rfl⟩
    apply List.mem_filter.mpr
    refine ⟨hf, ?_⟩
    simp only [Bool.or_eq_true]
    rcases hcond with h | h
    · exact Or.inl ((isFlair_iff _ _).mpr h)
    · exact Or.inr ((isDwi_iff _ _).mpr h)

/-- C6: when the input root is not an existing directory,
`process_dataset` reports the missing directory once and performs no
traversal, no directory creation and no slicing, and nothing propagates
past that report. -/
theorem missing_input_C6 (fs : FS) (inRoot outRoot : List String)
    (h : fs.rootIsDir = false) :
    process_dataset fs inRoot outRoot = .missingInput
    ∧ runOps fs inRoot outRoot = [] := by
  constructor <;> simp [process_dataset, runOps, h]

theorem slice_image_outcome (path : String) (vol? : Option Image3)
    (folder planes : List String) :
    (∃ r, (slice_image path vol? folder planes).1 = .ok r)
    ∨ ((∃ e, (slice_image path vol? folder planes).1
          = .error ("  -> ERROR processing file " ++ path ++ ": " ++ e))
        ∧ (slice_image path vol? folder planes).2 = []) := by
  cases vol? with
  | none => exact Or.inr ⟨⟨"read failed", rfl⟩, rfl⟩
  | some img =>
    cases h1 : listMin img.flatten.flatten with
    | none =>
      cases h2 : listMax img.flatten.flatten with
      | none =>
        exact Or.inr ⟨⟨"zero-size array to reduction operation",
          by simp [slice_image, h1, h2]⟩, by simp [slice_image, h1, h2]⟩
      | some mx =>
        exact Or.inr ⟨⟨"zero-size array to reduction operation",
          by simp [slice_image, h1, h2]⟩, by simp [slice_image, h1, h2]⟩
    | some mn =>
      cases h2 : listMax img.flatten.flatten with
      | none =>
        exact Or.inr ⟨⟨"zero-size array to reduction operation",
          by simp [slice_image, h1, h2]⟩, by simp [slice_image, h1, h2]⟩
      | some mx =>
        exact Or.inl ⟨⟨planes, planes.flatMap (planeFiles (normImage img mn mx))⟩,
          by simp [slice_image, h1, h2]⟩

theorem slice_image_ok_ops {path : String} {vol? : Option Image3}
    {folder planes : List String} {r : SliceResult}
    (h : (slice_image path vol? folder planes).1 = .ok r) :
    ∃ norm, r = ⟨planes, planes.flatMap (planeFiles norm)⟩
      ∧ (slice_image path vol? folder planes).2
          = sliceWriteOps folder norm planes := by
  cases vol? with
  | none => simp [slice_image] at h
  | some img =>
    cases h1 : listMin img.flatten.flatten with
    | none =>
      cases h2 : listMax img.flatten.flatten <;>
        simp [slice_image, h1, h2] at h
    | some mn =>
      cases h2 : listMax img.flatten.flatten with
      | none => simp [slice_image, h1, h2] at h
      | some mx =>
        have hmain : (slice_image path (some img) folder planes).1
            = .ok ⟨planes, planes.flatMap (planeFiles (normImage img mn mx))⟩ := by
          simp [slice_image, h1, h2]
        rw [hmain] at h
        injection h with h3
        exact ⟨normImage img mn mx, h3.symm, by simp [slice_image, h1, h2]⟩

/-- C3: with an existing input root the walker completes the traversal and
produces one outcome per matched file; each outcome is either a success or
an error report that names the offending file's path, and on error the
file's processing stopped after the folder creation (no slice writes), so
no failure below the per-file boundary reaches the walker. -/
theorem per_file_isolation_C3 (fs : FS) (inRoot outRoot : List String)
    (h : fs.rootIsDir = true) :
    process_dataset fs inRoot outRoot
        = .completed ((matchedFiles fs.entries inRoot).map
            (fun m => (processFile fs inRoot outRoot m).1))
    ∧ ((matchedFiles fs.entries inRoot).map
          (fun m => (processFile fs inRoot outRoot m).1)).length
        = (matchedFiles fs.entries inRoot).length
    ∧ ∀ m ∈ matchedFiles fs.entries inRoot,
        (∃ r, ((processFile fs inRoot outRoot m).1).outcome = .ok r)
        ∨ ((∃ e, ((processFile fs inRoot outRoot m).1).outcome
              = .error ("  -> ERROR processing file "
                  ++ joinPath (inRoot ++ m.1 ++ [m.2]) ++ ": " ++ e))
            ∧ (processFile fs inRoot outRoot m).2
              = [Op.mkdir (folderFor outRoot m.1 m.2)]) := by
  refine ⟨by simp [process_dataset, h], List.length_map _ _, ?_⟩
  intro m _
  rcases slice_image_outcome (joinPath (inRoot ++ m.1 ++ [m.2]))
      (fs.load m.1 m.2) (folderFor outRoot m.1 m.2) defaultPlanes with
    ⟨r, hr⟩ | ⟨⟨e, he⟩, hops⟩
  · exact Or.inl ⟨r, hr⟩
  · refine Or.inr ⟨⟨e, he⟩, ?_⟩
    show Op.mkdir (folderFor outRoot m.1 m.2)
        :: (slice_image (joinPath (inRoot ++ m.1 ++ [m.2])) (fs.load m.1 m.2)
            (folderFor outRoot m.1 m.2) defaultPlanes).2
      = [Op.mkdir (folderFor outRoot m.1 m.2)]
    rw [hops]

theorem processFile_ops_head (fs : FS) (inRoot outRoot : List String)
    (m : List String × String) :
    (processFile fs inRoot outRoot m).2.head?
      = some (Op.mkdir (folderFor outRoot m.1 m.2)) := rfl

theorem slice_image_ops (path : String) (vol? : Option Image3)
    (folder planes : List String) :
    (slice_image path vol? folder planes).2 = []
    ∨ ∃ norm, (slice_image path vol? folder planes).2
        = sliceWriteOps folder norm planes := by
  rcases slice_image_outcome path vol? folder planes with ⟨r, hr⟩ | ⟨_, hops⟩
  · rcases slice_image_ok_ops hr with ⟨norm, _, hops⟩
    exact Or.inr ⟨norm, hops⟩
  · exact Or.inl hops

theorem processFile_ops_under (fs : FS) (inRoot outRoot : List String)
    (m : List String × String) :
    ∀ op ∈ (processFile fs inRoot outRoot m).2,
      ∃ rest : List String,
        opTarget op = folderFor outRoot m.1 m.2 ++ rest := by
  intro op hop
  have hdef : (processFile fs inRoot outRoot m).2
      = Op.mkdir (folderFor outRoot m.1 m.2)
        :: (slice_image (joinPath (inRoot ++ m.1 ++ [m.2])) (fs.load m.1 m.2)
            (folderFor outRoot m.1 m.2) defaultPlanes).2 := rfl
  rw [hdef] at hop
  rcases List.mem_cons.mp hop with rfl | hop2
  · exact ⟨[], by simp [opTarget]⟩
  · rcases slice_image_ops (joinPath (inRoot ++ m.1 ++ [m.2])) (fs.load m.1 m.2)
        (folderFor outRoot m.1 m.2) defaultPlanes with hnil | ⟨norm, hops⟩
    · rw [hnil] at hop2
      exact absurd hop2 (List.not_mem_nil op)
    · rw [hops] at hop2
      rcases sliceWriteOps_cases op hop2 with ⟨q, _, rfl⟩ | ⟨q, _, f, _, rfl⟩
      · exact ⟨[q], by simp [opTarget]⟩
      · exact ⟨[q, f.name], by simp [opTarget]⟩

/-- C7 (amended): each matched file's slices are written under a folder
obtained by joining the output root with the file's directory path
relative to the input root, then a subfolder named
`<filename.replace(".nii.gz", "")>_slices` — the code removes every
occurrence of `.nii.gz` from the filename, not only a trailing suffix —
with one plane-named subdirectory per requested plane inside it when
slicing succeeds. -/
theorem output_layout_C7 (fs : FS) (inRoot outRoot : List String)
    (m : List String × String) (hm : m ∈ matchedFiles fs.entries inRoot) :
    (processFile fs inRoot outRoot m).2.head?
        = some (Op.mkdir (outRoot ++ m.1 ++ [pyReplace m.2 ".nii.gz" "" ++ "_slices"]))
    ∧ (∀ op ∈ (processFile fs inRoot outRoot m).2,
        ∃ rest : List String,
          opTarget op
            = outRoot ++ m.1 ++ [pyReplace m.2 ".nii.gz" "" ++ "_slices"] ++ rest)
    ∧ ∀ r, ((processFile fs inRoot outRoot m).1).outcome = .ok r →
        ∀ p ∈ defaultPlanes,
          Op.mkdir (outRoot ++ m.1 ++ [pyReplace m.2 ".nii.gz" "" ++ "_slices"] ++ [p])
            ∈ (processFile fs inRoot outRoot m).2 := by
  refine ⟨processFile_ops_head fs inRoot outRoot m,
    processFile_ops_under fs inRoot outRoot m, ?_⟩
  intro r hr p hp
  have hok : (slice_image (joinPath (inRoot ++ m.1 ++ [m.2])) (fs.load m.1 m.2)
      (folderFor outRoot m.1 m.2) defaultPlanes).1 = .ok r := hr
  rcases slice_image_ok_ops hok with ⟨norm, _, hops⟩
  have hdef : (processFile fs inRoot outRoot m).2
      = Op.mkdir (folderFor outRoot m.1 m.2)
        :: (slice_image (joinPath (inRoot ++ m.1 ++ [m.2])) (fs.load m.1 m.2)
            (folderFor outRoot m.1 m.2) defaultPlanes).2 := rfl
  rw [hdef, hops]
  exact List.mem_cons_of_mem _
    (mkdir_mem_sliceWriteOps (folderFor outRoot m.1 m.2) norm defaultPlanes hp)

/-- C7 counterexample: the matched filename `a.nii.gz_FLAIR.nii.gz`
contains `.nii.gz` twice; the claim's folder
`<filename-without-.nii.gz-suffix>_slices` would be
`a.nii.gz_FLAIR_slices`, but the code removes every occurrence and writes
everything under `a_FLAIR_slices` instead. -/
theorem folder_name_C7_counterexample :
    (⟨["anat"], "a.nii.gz_FLAIR.nii.gz"⟩ : List String × String)
        ∈ matchedFiles [(["anat"], ["a.nii.gz_FLAIR.nii.gz"])] []
    ∧ pyReplace "a.nii.gz_FLAIR.nii.gz" ".nii.gz" "" = "a_FLAIR"
    ∧ specStripNiiGz "a.nii.gz_FLAIR.nii.gz" = "a.nii.gz_FLAIR"
    ∧ (processFile
          ⟨true, [(["anat"], ["a.nii.gz_FLAIR.nii.gz"])], fun _ _ => some [[[5]]]⟩
          [] ["out"] (["anat"], "a.nii.gz_FLAIR.nii.gz")).2.head?
        = some (Op.mkdir ["out", "anat", "a_FLAIR_slices"])
    ∧ ∀ op ∈ (processFile
          ⟨true, [(["anat"], ["a.nii.gz_FLAIR.nii.gz"])], fun _ _ => some [[[5]]]⟩
          [] ["out"] (["anat"], "a.nii.gz_FLAIR.nii.gz")).2,
        (opTarget op).take 3 ≠ ["out", "anat", "a.nii.gz_FLAIR_slices"] := by
  have hfolder : folderFor ["out"] ["anat"] "a.nii.gz_FLAIR.nii.gz"
      = ["out", "anat", "a_FLAIR_slices"] := by
    simp +decide [folderFor, pyReplace, replaceChars]
  refine ⟨by decide, by simp +decide [pyReplace, replaceChars], by decide,
    ?_, ?_⟩
  · rw [processFile_ops_head, hfolder]
  · intro op hop
    obtain ⟨rest, hrest⟩ := processFile_ops_under _ _ _ _ op hop
    rw [hrest, hfolder,
      show (3 : ℕ) = (["out", "anat", "a_FLAIR_slices"] : List String).length from rfl,
      List.take_left]
    decide

theorem applyOp_dirs_of_writes {s : OutFS} {op : Op} {q : List String}
    (h : writesDirAt op q) : (applyOp s op).dirs q = true := by
  cases op with
  | mkdir d =>
    simp only [writesDirAt] at h
    simp only [applyOp]
    rw [if_pos h]
  | write p img => exact absurd h (by simp [writesDirAt])

theorem applyOp_dirs_of_not_writes {s : OutFS} {op : Op} {q : List String}
    (h : ¬ writesDirAt op q) : (applyOp s op).dirs q = s.dirs q := by
  cases op with
  | mkdir d =>
    simp only [writesDirAt] at h
    simp only [applyOp]
    rw [if_neg h]
  | write p img => rfl

theorem applyOp_files_of_writes {s : OutFS} {op : Op} {q : List String}
    (h : writesFileAt op q) :
    ∃ img, (applyOp s op).files q = some img
      ∧ ∀ t : OutFS, (applyOp t op).files q = some img := by
  cases op with
  | mkdir d => exact absurd h (by simp [writesFileAt])
  | write p img =>
    rcases h with rfl
    exact ⟨img, by simp [applyOp], fun t => by simp [applyOp]⟩

theorem applyOp_files_of_not_writes {s : OutFS} {op : Op} {q : List String}
    (h : ¬ writesFileAt op q) : (applyOp s op).files q = s.files q := by
  cases op with
  | mkdir d => rfl
  | write p img =>
    simp only [writesFileAt] at h
    simp only [applyOp]
    rw [if_neg h]

theorem applyOps_dirs_untouched {ops : List Op} {s : OutFS} {q : List String}
    (h : ∀ op ∈ ops, ¬ writesDirAt op q) :
    (applyOps s ops).dirs q = s.dirs q := by
  induction ops generalizing s with
  | nil => rfl
  | cons op ops ih =>
    rw [show applyOps s (op :: ops) = applyOps (applyOp s op) ops from rfl]
    rw [ih (fun op2 h2 => h op2 (List.mem_cons_of_mem _ h2))]
    exact applyOp_dirs_of_not_writes (h op (List.mem_cons_self _ _))

theorem applyOps_files_untouched {ops : List Op} {s : OutFS} {q : List String}
    (h : ∀ op ∈ ops, ¬ writesFileAt op q) :
    (applyOps s ops).files q = s.files q := by
  induction ops generalizing s with
  | nil => rfl
  | cons op ops ih =>
    rw [show applyOps s (op :: ops) = applyOps (applyOp s op) ops from rfl]
    rw [ih (fun op2 h2 => h op2 (List.mem_cons_of_mem _ h2))]
    exact applyOp_files_of_not_writes (h op (List.mem_cons_self _ _))

theorem applyOps_congr {ops : List Op} {s t : OutFS}
    (hd : ∀ q, (∀ op ∈ ops, ¬ writesDirAt op q) → s.dirs q = t.dirs q)
    (hf : ∀ q, (∀ op ∈ ops, ¬ writesFileAt op q) → s.files q = t.files q) :
    applyOps s ops = applyOps t ops := by
  induction ops generalizing s t with
  | nil =>
    exact OutFS.ext (funext fun q => hd q (by simp))
      (funext fun q => hf q (by simp))
  | cons op ops ih =>
    rw [show applyOps s (op :: ops) = applyOps (applyOp s op) ops from rfl,
      show applyOps t (op :: ops) = applyOps (applyOp t op) ops from rfl]
    apply ih
    · intro q hq
      by_cases hw : writesDirAt op q
      · rw [applyOp_dirs_of_writes hw, applyOp_dirs_of_writes hw]
      · rw [applyOp_dirs_of_not_writes hw, applyOp_dirs_of_not_writes hw]
        apply hd q
        intro op2 hop2
        rcases List.mem_cons.mp hop2 with rfl | h2
        · exact hw
        · exact hq op2 h2
    · intro q hq
      by_cases hw : writesFileAt op q
      · rcases applyOp_files_of_writes (s := s) hw with ⟨img, h1, hall⟩
        rw [h1, hall t]
      · rw [applyOp_files_of_not_writes hw, applyOp_files_of_not_writes hw]
        apply hf q
        intro op2 hop2
        rcases List.mem_cons.mp hop2 with rfl | h2
        · exact hw
        · exact hq op2 h2

theorem applyOps_replay (ops : List Op) (s : OutFS) :
    applyOps (applyOps s ops) ops = applyOps s ops := by
  cases ops with
  | nil => rfl
  | cons op ops =>
    rw [show applyOps s (op :: ops) = applyOps (applyOp s op) ops from rfl,
      show applyOps (applyOps (applyOp s op) ops) (op :: ops)
        = applyOps (applyOp (applyOps (applyOp s op) ops) op) ops from rfl]
    apply applyOps_congr
    · intro q hq
      by_cases hw : writesDirAt op q
      · rw [applyOp_dirs_of_writes hw, applyOp_dirs_of_writes hw]
      · rw [applyOp_dirs_of_not_writes hw, applyOp_dirs_of_not_writes hw,
          applyOps_dirs_untouched hq]
        exact applyOp_dirs_of_not_writes hw
    · intro q hq
      by_cases hw : writesFileAt op q
      · rcases applyOp_files_of_writes
            (s := applyOps (applyOp s op) ops) hw with ⟨img, h1, hall⟩
        rw [h1, hall s]
      · rw [applyOp_files_of_not_writes hw, applyOp_files_of_not_writes hw,
          applyOps_files_untouched hq]
        exact applyOp_files_of_not_writes hw

/-- C9: running `process_dataset` twice over the same input and output
roots is idempotent on the output filesystem — the second run recreates
the same directories and rewrites the same files, leaving the state of
the first run unchanged — and `os.makedirs(..., exist_ok=True)` never
fails on an already existing directory. -/
theorem rerun_idempotent_C9 (fs : FS) (inRoot outRoot : List String)
    (s : OutFS) :
    applyOps (applyOps s (runOps fs inRoot outRoot)) (runOps fs inRoot outRoot)
        = applyOps s (runOps fs inRoot outRoot)
    ∧ ∀ (t : OutFS) (d : List String),
        makedirsE true t d = .ok (applyOp t (.mkdir d)) := by
  refine ⟨applyOps_replay _ s, ?_⟩
  intro t d
  simp [makedirsE]

/-- A concrete dataset whose single FLAIR file fails to load. -/
def fsErr : FS := ⟨true, [(["anat"], ["x_FLAIR.nii.gz"])], fun _ _ => none⟩

/-- A concrete run whose input root is missing. -/
def fsMissing : FS := ⟨false, [(["anat"], ["x_FLAIR.nii.gz"])], fun _ _ => none⟩

/-- A concrete dataset whose single FLAIR file loads as the 1×1×1 volume
`[[[5]]]`. -/
def fsOkay : FS := ⟨true, [(["anat"], ["x_FLAIR.nii.gz"])], fun _ _ => some [[[5]]]⟩

theorem normalization_range_C1_witness :
    listMin ([[[0, 9, 10]]] : Image3).flatten.flatten = some 0
    ∧ listMax ([[[0, 9, 10]]] : Image3).flatten.flatten = some 10
    ∧ ((0 : ℚ) < 10)
    ∧ (normImage [[[0, 9, 10]]] 0 10
          = ([[[0, 9, 10]]] : Image3).map (List.map (List.map (normalizeVal 0 10)))
        ∧ normalizeVal 0 10 0 = 0
        ∧ normalizeVal 0 10 10 = 255
        ∧ (∀ v ∈ ([[[0, 9, 10]]] : Image3).flatten.flatten,
            normalizeVal 0 10 v ≤ 255)) :=
  ⟨by decide, by decide, by decide,
    normalization_range_C1 [[[0, 9, 10]]] 0 10 (by decide) (by decide) (by decide)⟩

theorem slice_counts_and_shapes_C2_witness :
    HasShape3 ([[[1, 2], [3, 4]], [[5, 6], [7, 8]]] : Image3) 2 2 2
    ∧ (0 : ℕ) < 2
    ∧ (∃ files : List WrittenFile,
        (slice_image "p" (some [[[1, 2], [3, 4]], [[5, 6], [7, 8]]]) ["f"]
            defaultPlanes).1
            = .ok ⟨defaultPlanes, files⟩
          ∧ (filesOfPlane files "axial").length = 2
          ∧ (∀ f ∈ filesOfPlane files "axial", HasShape2 f.image 2 2)
          ∧ (filesOfPlane files "coronal").length = 2
          ∧ (∀ f ∈ filesOfPlane files "coronal", HasShape2 f.image 2 2)
          ∧ (filesOfPlane files "sagittal").length = 2
          ∧ (∀ f ∈ filesOfPlane files "sagittal", HasShape2 f.image 2 2)) :=
  ⟨by decide, by decide,
    slice_counts_and_shapes_C2 [[[1, 2], [3, 4]], [[5, 6], [7, 8]]] 2 2 2 "p" ["f"]
      (by decide) (by decide) (by decide) (by decide)⟩

theorem per_file_isolation_C3_witness :
    fsErr.rootIsDir = true
    ∧ (process_dataset fsErr [] ["out"]
          = .completed ((matchedFiles fsErr.entries []).map
              (fun m => (processFile fsErr [] ["out"] m).1))
      ∧ ((matchedFiles fsErr.entries []).map
            (fun m => (processFile fsErr [] ["out"] m).1)).length
          = (matchedFiles fsErr.entries []).length
      ∧ ∀ m ∈ matchedFiles fsErr.entries [],
          (∃ r, ((processFile fsErr [] ["out"] m).1).outcome = .ok r)
          ∨ ((∃ e, ((processFile fsErr [] ["out"] m).1).outcome
                = .error ("  -> ERROR processing file "
                    ++ joinPath ([] ++ m.1 ++ [m.2]) ++ ": " ++ e))
              ∧ (processFile fsErr [] ["out"] m).2
                = [Op.mkdir (folderFor ["out"] m.1 m.2)])) :=
  ⟨rfl, per_file_isolation_C3 fsErr [] ["out"] rfl⟩

theorem degenerate_all_zero_C4_witness :
    listMin ([[[5]]] : Image3).flatten.flatten = some 5
    ∧ listMax ([[[5]]] : Image3).flatten.flatten = some 5
    ∧ ((slice_image "p" (some [[[5]]]) ["f"] defaultPlanes).1
          = .ok ⟨defaultPlanes,
              defaultPlanes.flatMap (planeFiles (normImage [[[5]]] 5 5))⟩
        ∧ ∀ f ∈ defaultPlanes.flatMap (planeFiles (normImage [[[5]]] 5 5)),
            ∀ row ∈ f.image, ∀ x ∈ row, x = 0) :=
  ⟨by decide, by decide,
    degenerate_all_zero_C4 [[[5]]] 5 "p" ["f"] defaultPlanes (by decide) (by decide)⟩

theorem match_predicate_C5_witness :
    ((["anat"], ["x_FLAIR.nii.gz", "y.txt"]) : List String × List String)
        ∈ [((["anat"], ["x_FLAIR.nii.gz", "y.txt"]) : List String × List String)]
    ∧ "x_FLAIR.nii.gz" ∈ ["x_FLAIR.nii.gz", "y.txt"]
    ∧ (((["anat"], "x_FLAIR.nii.gz")
          ∈ matchedFiles [(["anat"], ["x_FLAIR.nii.gz", "y.txt"])] [] ↔
        (("anat" ∈ ([] : List String) ++ ["anat"]
            ∧ pyEndsWith "x_FLAIR.nii.gz" "_FLAIR.nii.gz" = true)
          ∨ ("dwi" ∈ ([] : List String) ++ ["anat"]
              ∧ pyEndsWith "x_FLAIR.nii.gz" "_dwi.nii.gz" = true)))
      ∧ (isFlair (([] : List String) ++ ["anat"]) "x_FLAIR.nii.gz" = true ↔
          ("anat" ∈ ([] : List String) ++ ["anat"]
            ∧ pyEndsWith "x_FLAIR.nii.gz" "_FLAIR.nii.gz" = true))
      ∧ (isDwi (([] : List String) ++ ["anat"]) "x_FLAIR.nii.gz" = true ↔
          ("dwi" ∈ ([] : List String) ++ ["anat"]
            ∧ pyEndsWith "x_FLAIR.nii.gz" "_dwi.nii.gz" = true))) :=
  ⟨by decide, by decide,
    match_predicate_C5 [(["anat"], ["x_FLAIR.nii.gz", "y.txt"])] [] ["anat"]
      ["x_FLAIR.nii.gz", "y.txt"] "x_FLAIR.nii.gz" (by decide) (by decide)⟩

theorem missing_input_C6_witness :
    fsMissing.rootIsDir = false
    ∧ (process_dataset fsMissing ["in"] ["out"] = .missingInput
        ∧ runOps fsMissing ["in"] ["out"] = []) :=
  ⟨rfl, missing_input_C6 fsMissing ["in"] ["out"] rfl⟩

theorem output_layout_C7_witness :
    ((["anat"], "x_FLAIR.nii.gz") : List String × String)
        ∈ matchedFiles fsOkay.entries []
    ∧ ((processFile fsOkay [] ["out"] (["anat"], "x_FLAIR.nii.gz")).2.head?
          = some (Op.mkdir (["out"] ++ ["anat"]
              ++ [pyReplace "x_FLAIR.nii.gz" ".nii.gz" "" ++ "_slices"]))
      ∧ (∀ op ∈ (processFile fsOkay [] ["out"] (["anat"], "x_FLAIR.nii.gz")).2,
          ∃ rest : List String,
            opTarget op = ["out"] ++ ["anat"]
              ++ [pyReplace "x_FLAIR.nii.gz" ".nii.gz" "" ++ "_slices"] ++ rest)
      ∧ ∀ r, ((processFile fsOkay [] ["out"] (["anat"], "x_FLAIR.nii.gz")).1).outcome
            = .ok r →
          ∀ p ∈ defaultPlanes,
            Op.mkdir (["out"] ++ ["anat"]
                ++ [pyReplace "x_FLAIR.nii.gz" ".nii.gz" "" ++ "_slices"] ++ [p])
              ∈ (processFile fsOkay [] ["out"] (["anat"], "x_FLAIR.nii.gz")).2) :=
  ⟨by decide,
    output_layout_C7 fsOkay [] ["out"] (["anat"], "x_FLAIR.nii.gz") (by decide)⟩

theorem slice_naming_C8_witness :
    HasShape3 ([[[1, 2], [3, 4]], [[5, 6], [7, 8]]] : Image3) 2 2 2
    ∧ (0 : ℕ) < 2
    ∧ (∃ files : List WrittenFile,
        (slice_image "q" (some [[[1, 2], [3, 4]], [[5, 6], [7, 8]]]) ["g"]
            defaultPlanes).1
            = .ok ⟨defaultPlanes, files⟩
          ∧ (filesOfPlane files "axial").map (fun f => f.name)
              = (List.range 2).map sliceName
          ∧ (filesOfPlane files "coronal").map (fun f => f.name)
              = (List.range 2).map sliceName
          ∧ (filesOfPlane files "sagittal").map (fun f => f.name)
              = (List.range 2).map sliceName
          ∧ sliceName 0 = "slice_000.png"
          ∧ sliceName 1000 = "slice_1000.png"
          ∧ ∀ i : ℕ, (sliceName i).length = 10 + max 3 (Nat.repr i).length) :=
  ⟨by decide, by decide,
    slice_naming_C8 [[[1, 2], [3, 4]], [[5, 6], [7, 8]]] 2 2 2 "q" ["g"]
      (by decide) (by decide) (by decide) (by decide)⟩

theorem unknown_plane_C10_witness :
    listMin ([[[1]]] : Image3).flatten.flatten = some 1
    ∧ listMax ([[[1]]] : Image3).flatten.flatten = some 1
    ∧ "oblique" ≠ "axial"
    ∧ "oblique" ∈ ["axial", "oblique"]
    ∧ ((slice_image "p" (some [[[1]]]) ["f"] ["axial", "oblique"]).1
          = .ok ⟨["axial", "oblique"],
              (["axial", "oblique"] : List String).flatMap
                (planeFiles (normImage [[[1]]] 1 1))⟩
      ∧ (slice_image "p" (some [[[1]]]) ["f"] ["axial", "oblique"]).2
          = sliceWriteOps ["f"] (normImage [[[1]]] 1 1) ["axial", "oblique"]
      ∧ Op.mkdir (["f"] ++ ["oblique"])
          ∈ sliceWriteOps ["f"] (normImage [[[1]]] 1 1) ["axial", "oblique"]
      ∧ planeFiles (normImage [[[1]]] 1 1) "oblique" = []
      ∧ ∀ op ∈ sliceWriteOps ["f"] (normImage [[[1]]] 1 1) ["axial", "oblique"],
          ∀ nm : String, ∀ im2 : List (List ℕ),
            op ≠ Op.write (["f"] ++ ["oblique", nm]) im2) :=
  ⟨by decide, by decide, by decide, by decide,
    unknown_plane_C10 [[[1]]] 1 1 "p" ["f"] ["axial", "oblique"] "oblique"
      (by decide) (by decide) (by decide) (by decide) (by decide) (by decide)⟩
